import Mathlib

set_option maxHeartbeats 1000000

/-!
Verification development for the hackrf antenna SWR utility
(`hackrf_antenna_swr_utility/main.py`).

Shallow embedding: Python floats are modelled as rationals (`ℚ`) except for
the final SWR formula, which uses real exponentiation and is modelled in `ℝ`;
Python dicts with float keys are modelled as insertion-ordered association
lists; code that can raise returns an explicit outcome type.
-/

namespace SwrUtility

/-- Models Python `str.split(sep)` for a single-character separator on a list
of characters: splits on every occurrence of the separator and keeps empty
segments (so splitting the empty text yields one empty segment). -/
def splitChar (sep : Char) : List Char → List (List Char)
  | [] => [[]]
  | c :: rest =>
    match splitChar sep rest with
    | [] => [[c]]
    | g :: gs => if c = sep then [] :: g :: gs else (c :: g) :: gs

/-- Drops leading whitespace characters. -/
def trimLeft (cs : List Char) : List Char := cs.dropWhile Char.isWhitespace

/-- Models Python `str.strip()`: removes leading and trailing whitespace. -/
def trimChars (cs : List Char) : List Char :=
  trimLeft (trimLeft cs.reverse).reverse

/-- Numeric value of a decimal digit character. -/
def digitVal (c : Char) : Nat := c.toNat - 48

/-- Value of a list of decimal digit characters read in base 10. -/
def natOfDigits (cs : List Char) : Nat :=
  cs.foldl (fun a c => 10 * a + digitVal c) 0

/-- Parses an unsigned decimal literal (digits with an optional decimal
point, at least one digit overall) into a rational. -/
def pyFloatCore (cs : List Char) : Option ℚ :=
  match splitChar '.' cs with
  | [ip] =>
    if ip ≠ [] ∧ ip.all Char.isDigit then some (natOfDigits ip) else none
  | [ip, fp] =>
    if ip.all Char.isDigit ∧ fp.all Char.isDigit ∧ (ip ≠ [] ∨ fp ≠ []) then
      some ((natOfDigits ip : ℚ) + (natOfDigits fp : ℚ) / (10 : ℚ) ^ fp.length)
    else none
  | _ => none

/-- Models Python `float()` applied to the decimal literals produced by the
two scan tools: surrounding whitespace is stripped, an optional sign is
followed by digits with an optional decimal point.  Returns `none` where
`float()` raises `ValueError` (any other text). -/
def pyFloat (cs : List Char) : Option ℚ :=
  match trimChars cs with
  | '-' :: rest => (pyFloatCore rest).map (fun q => -q)
  | '+' :: rest => pyFloatCore rest
  | rest => pyFloatCore rest

example : pyFloat " 750000000".data = some 750000000 := by decide
example : pyFloat "center_freq".data = none := by decide
example : pyFloat "20:32:17".data = none := by decide
example : splitChar ' ' "a  b".data = ["a".data, "".data, "b".data] := by decide

/-! ## Data model

A `FrequencyPowerMap` is a Python dict from float frequency to a list of
float power readings, modelled as an insertion-ordered association list. -/

/-- Frequency-to-readings map (Python dict, insertion ordered). -/
abbrev FrequencyPowerMap := List (ℚ × List ℚ)

/-- Models `frequencies.setdefault(k, []).append(p)` from `main.py`: if the
key is present, append the reading to its list; otherwise insert the key at
the end with a one-element list. -/
def setdefaultAppend : FrequencyPowerMap → ℚ → ℚ → FrequencyPowerMap
  | [], k, p => [(k, [p])]
  | (k0, v0) :: rest, k, p =>
    if k0 = k then (k0, v0 ++ [p]) :: rest
    else (k0, v0) :: setdefaultAppend rest k p

/-- Models Python dict indexing `m[k]`: `none` is a `KeyError`. -/
def lookup : FrequencyPowerMap → ℚ → Option (List ℚ)
  | [], _ => none
  | (k0, v0) :: rest, k => if k0 = k then some v0 else lookup rest k

/-- Key list of a map (Python `m.keys()`, in insertion order). -/
def keys (m : FrequencyPowerMap) : List ℚ := m.map Prod.fst

/-- Well-formedness invariant: every key maps to a non-empty reading list. -/
def mapWF (m : FrequencyPowerMap) : Prop := ∀ p ∈ m, p.2 ≠ ([] : List ℚ)

instance (m : FrequencyPowerMap) : Decidable (mapWF m) := by
  unfold mapWF; infer_instance

/-! ## Scan state and the sweep aggregator -/

/-- Mutable state of a scan loop: the accumulated map and the loop-detection
variables `loop_cursor` and `max_encountered_frequency` of `main.py`. -/
structure ScanState where
  frequencies : FrequencyPowerMap
  loop_cursor : Nat
  max_encountered_frequency : ℚ
deriving DecidableEq

/-- Wrap-around tracking shared by both scan loops (`main.py` lines 86-89 and
156-159): a sample frequency at or below the running maximum counts a loop,
a larger one becomes the new maximum. -/
def aggTrack (st : ScanState) (f : ℚ) : ScanState :=
  if f ≤ st.max_encountered_frequency then
    { st with loop_cursor := st.loop_cursor + 1 }
  else
    { st with max_encountered_frequency := f }

/-- One sweep-aggregator step (`main.py` lines 86-99 and 156-169): track the
wrap frequency `f`, then either signal completion (when the loop cursor has
reached the threshold; the triggering sample is not recorded, matching the
`break` before the `append`) or record power `p` under map key `k`.  The
returned flag is true exactly when completion is signalled. -/
def aggStep (loops : Nat) (st : ScanState) (f k p : ℚ) : ScanState × Bool :=
  let st1 := aggTrack st f
  if loops ≤ st1.loop_cursor then (st1, true)
  else ({ st1 with frequencies := setdefaultAppend st1.frequencies k p }, false)

/-- Folds the sweep aggregator over a list of samples `(f, k, p)`, stopping
at the first completion signal; returns the final state and the index of the
sample that triggered completion (`none` if the stream ran out first). -/
def aggRun (loops : Nat) : List (ℚ × ℚ × ℚ) → ScanState → Nat → ScanState × Option Nat
  | [], st, _ => (st, none)
  | (f, k, p) :: rest, st, i =>
    match aggStep loops st f k p with
    | (st1, true) => (st1, some i)
    | (st1, false) => aggRun loops rest st1 (i + 1)

/-! ## Process harness models

The stream read from the child process is a list of items: text lines, or a
user cancellation (`KeyboardInterrupt`) delivered at a read.  Reading past
the end of the list models EOF: Python `readline` then returns the empty
string forever, so the osmocom loop needs explicit fuel. -/

/-- One item of the child-process output stream. -/
inductive Item where
  | line : List Char → Item
  | interrupt : Item
deriving DecidableEq

/-- Outcome of a scan function: a normal return of the accumulated map (with
flags: was a termination signal sent to the child, and was the return the
result of absorbing a user cancellation), a propagating `KeyboardInterrupt`
(after sending the signal iff the flag is set), a propagating `ValueError`,
or fuel exhaustion (the loop was still running). -/
inductive ScanResult where
  | done : FrequencyPowerMap → Bool → Bool → ScanResult
  | raisedKI : Bool → ScanResult
  | errValue : ScanResult
  | fuelOut : ScanResult
deriving DecidableEq

/-- One iteration body of `get_antenna_statistics_osmocom` (`main.py` lines
69-99): strip the line; try to unpack exactly 10 space-separated fields,
skipping the line on mismatch (the bare `except: continue`); then, outside
any handler, convert `freq`, test for wrap-around and completion (sending
SIGINT and breaking with the accumulated map), and otherwise convert
`center_freq` and `power_db` and record the reading under `center_freq`.
A failing `float()` conversion is a propagating `ValueError`. -/
def osmocomStep (loops : Nat) (st : ScanState) (raw : List Char) :
    ScanState ⊕ ScanResult :=
  let line := trimChars raw
  match splitChar ' ' line with
  | [_date, _time, _w1, center_freq, _w2, freq, _w3, power_db, _w4, _noise_floor_db] =>
    match pyFloat freq with
    | none => Sum.inr ScanResult.errValue
    | some f =>
      let st1 := aggTrack st f
      if loops ≤ st1.loop_cursor then
        Sum.inr (ScanResult.done st1.frequencies true false)
      else
        match pyFloat center_freq with
        | none => Sum.inr ScanResult.errValue
        | some c =>
          match pyFloat power_db with
          | none => Sum.inr ScanResult.errValue
          | some p =>
            Sum.inl { st1 with frequencies := setdefaultAppend st1.frequencies c p }
  | _ => Sum.inl st

/-- The `while True` read loop of `get_antenna_statistics_osmocom` (`main.py`
lines 66-104).  Reading an exhausted stream yields the empty line, as Python
`readline` does at EOF; the loop has no EOF test, so fuel bounds the number
of iterations.  A `KeyboardInterrupt` at a read is caught, SIGINT is sent to
the child, and the exception is re-raised (lines 100-102). -/
def get_antenna_statistics_osmocom (loops : Nat) :
    Nat → List Item → ScanState → ScanResult
  | 0, _, _ => ScanResult.fuelOut
  | Nat.succ fuel, [], st =>
    match osmocomStep loops st [] with
    | Sum.inl st1 => get_antenna_statistics_osmocom loops fuel [] st1
    | Sum.inr r => r
  | Nat.succ _, Item.interrupt :: _, _ => ScanResult.raisedKI true
  | Nat.succ fuel, Item.line raw :: rest, st =>
    match osmocomStep loops st raw with
    | Sum.inl st1 => get_antenna_statistics_osmocom loops fuel rest st1
    | Sum.inr r => r

/-- Outcome of the inner `for idx, power in enumerate(measurements)` loop of
`get_antenna_statistics_rtl_power`: ran through all bins, broke out after
signalling completion (SIGINT sent), or raised `ValueError` on a
non-numeric reading (`float(power)` is outside the guarded region). -/
inductive InnerOut where
  | ok : ScanState → InnerOut
  | brk : ScanState → InnerOut
  | err : InnerOut
deriving DecidableEq

/-- The inner bin loop of `get_antenna_statistics_rtl_power` (`main.py`
lines 154-169): each bin is at `base_freq + idx * interval`; wrap-around is
tracked on that frequency; on completion SIGINT is sent and only the inner
loop breaks; otherwise the reading is parsed and recorded under the bin
frequency. -/
def rtlInner (loops : Nat) (base_freq interval : ℚ) :
    List (List Char) → Nat → ScanState → InnerOut
  | [], _, st => InnerOut.ok st
  | power :: rest, idx, st =>
    let freq := base_freq + (idx : ℚ) * interval
    let st1 := aggTrack st freq
    if loops ≤ st1.loop_cursor then InnerOut.brk st1
    else
      match pyFloat power with
      | none => InnerOut.err
      | some p =>
        rtlInner loops base_freq interval rest (idx + 1)
          { st1 with frequencies := setdefaultAppend st1.frequencies freq p }

/-- The `while True` read loop of `get_antenna_statistics_rtl_power`
(`main.py` lines 133-173).  A blank (stripped-empty) line, and hence also
EOF, breaks the loop and the accumulated map is returned.  A comma-split
line needs fields 3 and 5 to be numeric (guarded by `except: continue`);
fields 7 onward are the bin readings, handled by `rtlInner`.  A
`KeyboardInterrupt` at a read is caught and SIGINT is sent, but it is not
re-raised: the function falls through to `return frequencies` (lines
170-173).  The Bool argument records whether SIGINT was already sent. -/
def get_antenna_statistics_rtl_power (loops : Nat) :
    List Item → ScanState → Bool → ScanResult
  | [], st, sig => ScanResult.done st.frequencies sig false
  | Item.interrupt :: _, st, _ => ScanResult.done st.frequencies true true
  | Item.line raw :: rest, st, sig =>
    let line := trimChars raw
    if line = [] then ScanResult.done st.frequencies sig false
    else
      let parts := splitChar ',' line
      match parts.get? 2 with
      | none => get_antenna_statistics_rtl_power loops rest st sig
      | some f2 =>
        match pyFloat f2 with
        | none => get_antenna_statistics_rtl_power loops rest st sig
        | some base_freq =>
          match parts.get? 4 with
          | none => get_antenna_statistics_rtl_power loops rest st sig
          | some f4 =>
            match pyFloat f4 with
            | none => get_antenna_statistics_rtl_power loops rest st sig
            | some interval =>
              match rtlInner loops base_freq interval (parts.drop 6) 0 st with
              | InnerOut.err => ScanResult.errValue
              | InnerOut.ok st1 =>
                get_antenna_statistics_rtl_power loops rest st1 sig
              | InnerOut.brk st1 =>
                get_antenna_statistics_rtl_power loops rest st1 true

/-! ## SWR deriver -/

/-- Models `sum(xs) / float(len(xs))`: `none` is the `ZeroDivisionError` an
empty reading list would raise. -/
def meanOpt (xs : List ℚ) : Option ℚ :=
  if xs.length = 0 then none else some (xs.sum / (xs.length : ℚ))

/-- Total arithmetic mean, used on the specification side (the deriver only
ever applies it to non-empty lists). -/
def meanD (xs : List ℚ) : ℚ := xs.sum / (xs.length : ℚ)

/-- The SWR formula of `main.py` line 187:
`(10 ** (loss / 20) + 1) / (10 ** (loss / 20) - 1)`, with real
exponentiation standing in for Python float power. -/
noncomputable def swrQ (loss : ℚ) : ℝ :=
  ((10 : ℝ) ^ ((loss : ℝ) / 20) + 1) / ((10 : ℝ) ^ ((loss : ℝ) / 20) - 1)

/-- The `for frequency in sorted(baseline.keys())` loop body of
`get_frequency_swr_pairs` (`main.py` lines 179-189), iterated over a given
key list: look up both maps (a missing key is a `KeyError`), average each
reading list (an empty one is a `ZeroDivisionError`), floor the loss at
0.001 and append the SWR pair.  Any failure aborts the whole derivation. -/
noncomputable def derivePairs (baseline measurements : FrequencyPowerMap) :
    List ℚ → Option (List (ℚ × ℝ))
  | [] => some []
  | frequency :: rest =>
    match lookup baseline frequency with
    | none => none
    | some pre =>
      match lookup measurements frequency with
      | none => none
      | some post =>
        match meanOpt pre with
        | none => none
        | some pre_value =>
          match meanOpt post with
          | none => none
          | some post_value =>
            let loss := max (pre_value - post_value) (1 / 1000)
            match derivePairs baseline measurements rest with
            | none => none
            | some tail => some ((frequency, swrQ loss) :: tail)

/-- Ascending sort of a map's keys, as `sorted(baseline.keys())`. -/
def sortedKeys (m : FrequencyPowerMap) : List ℚ :=
  List.insertionSort (fun a b => a ≤ b) (keys m)

/-- Models `get_frequency_swr_pairs` (`main.py` lines 176-191). -/
noncomputable def get_frequency_swr_pairs
    (baseline measurements : FrequencyPowerMap) : Option (List (ℚ × ℝ)) :=
  derivePairs baseline measurements (sortedKeys baseline)

/-- Modelled from the spec (for comparison with the code): one SWR pair per
baseline key in ascending frequency order, where the loss is the baseline
mean minus the measurement mean floored at 0.001 and the SWR is
`(10^(loss/20)+1)/(10^(loss/20)-1)`. -/
noncomputable def specPairs (baseline measurements : FrequencyPowerMap) :
    List (ℚ × ℝ) :=
  (sortedKeys baseline).map (fun f =>
    (f, swrQ (max (meanD ((lookup baseline f).getD [])
                    - meanD ((lookup measurements f).getD [])) (1 / 1000))))

/-- Modelled from the spec (for comparison with the code): the samples one
Format B record contributes, one per reading at `base + bin_index * step`,
with unparseable readings defaulting (the code instead raises on them). -/
def specBinSamples (base interval : ℚ) :
    List (List Char) → Nat → List (ℚ × ℚ)
  | [], _ => []
  | power :: rest, idx =>
    (base + (idx : ℚ) * interval, (pyFloat power).getD 0)
      :: specBinSamples base interval rest (idx + 1)

/-- Folds `setdefaultAppend` over a sample list. -/
def recordAll (m : FrequencyPowerMap) (samples : List (ℚ × ℚ)) :
    FrequencyPowerMap :=
  samples.foldl (fun acc s => setdefaultAppend acc s.1 s.2) m

/-! ## Helper lemmas -/

lemma aggTrack_frequencies (st : ScanState) (f : ℚ) :
    (aggTrack st f).frequencies = st.frequencies := by
  unfold aggTrack; split <;> rfl

lemma mapWF_setdefaultAppend (k p : ℚ) :
    ∀ m : FrequencyPowerMap, mapWF m → mapWF (setdefaultAppend m k p) := by
  intro m
  induction m with
  | nil =>
    intro _ q hq
    simp only [setdefaultAppend, List.mem_singleton] at hq
    subst hq; simp
  | cons hd tl ih =>
    obtain ⟨k0, v0⟩ := hd
    intro h q hq
    have h0 : v0 ≠ ([] : List ℚ) := h (k0, v0) (by simp)
    have htl : mapWF tl := fun q hq => h q (List.mem_cons_of_mem _ hq)
    simp only [setdefaultAppend] at hq
    by_cases hk : k0 = k
    · rw [if_pos hk] at hq
      rcases List.mem_cons.mp hq with h1 | h1
      · subst h1; simp
      · exact htl q h1
    · rw [if_neg hk] at hq
      rcases List.mem_cons.mp hq with h1 | h1
      · subst h1; exact h0
      · exact ih htl q h1

lemma lookup_eq_none_of_not_mem {m : FrequencyPowerMap} {k : ℚ}
    (h : ¬ k ∈ keys m) : lookup m k = none := by
  induction m with
  | nil => rfl
  | cons hd tl ih =>
    obtain ⟨k0, v0⟩ := hd
    have hne : ¬ k0 = k := by
      intro he; exact h (by simp [keys, he])
    have htl : ¬ k ∈ keys tl := by
      intro hmem; exact h (by simp [keys] at hmem ⊢; exact Or.inr hmem)
    simp only [lookup, if_neg hne]
    exact ih htl

lemma lookup_of_mem_keys {m : FrequencyPowerMap} {k : ℚ}
    (h : k ∈ keys m) : ∃ v, lookup m k = some v ∧ (k, v) ∈ m := by
  induction m with
  | nil => simp [keys] at h
  | cons hd tl ih =>
    obtain ⟨k0, v0⟩ := hd
    by_cases hk : k0 = k
    · subst hk
      exact ⟨v0, by simp [lookup], by simp⟩
    · have htl : k ∈ keys tl := by
        simp only [keys, List.map_cons, List.mem_cons] at h
        rcases h with h | h
        · exact absurd h.symm hk
        · exact h
      obtain ⟨v, hv, hmem⟩ := ih htl
      exact ⟨v, by simp [lookup, if_neg hk, hv], List.mem_cons_of_mem _ hmem⟩

lemma meanOpt_of_ne_nil {xs : List ℚ} (h : xs ≠ []) :
    meanOpt xs = some (meanD xs) := by
  unfold meanOpt meanD
  rw [if_neg (by simpa using h)]

/-- Sorted baseline keys are baseline keys. -/
lemma mem_keys_of_mem_sortedKeys {m : FrequencyPowerMap} {k : ℚ}
    (h : k ∈ sortedKeys m) : k ∈ keys m :=
  (List.perm_insertionSort (fun a c => a ≤ c) (keys m)).mem_iff.mp h

/-- On well-formed maps with the measurement keys covering the given key
list, the deriver loop succeeds and produces the spec-side pair for each
key in order. -/
lemma derivePairs_eq_spec {b m : FrequencyPowerMap}
    (hb : mapWF b) (hm : mapWF m) (hsup : ∀ k ∈ keys b, k ∈ keys m) :
    ∀ ks : List ℚ, (∀ k ∈ ks, k ∈ keys b) →
      derivePairs b m ks = some (ks.map (fun f =>
        (f, swrQ (max (meanD ((lookup b f).getD [])
                        - meanD ((lookup m f).getD [])) (1 / 1000))))) := by
  intro ks
  induction ks with
  | nil => intro _; rfl
  | cons k rest ih =>
    intro hks
    have hkb : k ∈ keys b := hks k (by simp)
    have hkm : k ∈ keys m := hsup k hkb
    obtain ⟨pre, hpre, hpre_mem⟩ := lookup_of_mem_keys hkb
    obtain ⟨post, hpost, hpost_mem⟩ := lookup_of_mem_keys hkm
    have hpre_ne : pre ≠ [] := hb (k, pre) hpre_mem
    have hpost_ne : post ≠ [] := hm (k, post) hpost_mem
    have hrest := ih (fun x hx => hks x (List.mem_cons_of_mem _ hx))
    simp only [derivePairs, hpre, hpost, meanOpt_of_ne_nil hpre_ne,
      meanOpt_of_ne_nil hpost_ne, hrest, List.map_cons, Option.getD_some]

/-- A key whose measurement lookup fails poisons the whole derivation. -/
lemma derivePairs_eq_none {b m : FrequencyPowerMap} {k : ℚ}
    (hm : lookup m k = none) :
    ∀ ks : List ℚ, k ∈ ks → derivePairs b m ks = none := by
  intro ks
  induction ks with
  | nil => intro h; simp at h
  | cons x rest ih =>
    intro hmem
    rcases List.mem_cons.mp hmem with he | hrest
    · cases hlb : lookup b x with
      | none => simp [derivePairs, hlb]
      | some pre => simp [derivePairs, hlb, he ▸ hm]
    · cases hlb : lookup b x with
      | none => simp [derivePairs, hlb]
      | some pre =>
        cases hlm : lookup m x with
        | none => simp [derivePairs, hlb, hlm]
        | some post =>
          cases hm1 : meanOpt pre with
          | none => simp [derivePairs, hlb, hlm, hm1]
          | some pv =>
            cases hm2 : meanOpt post with
            | none => simp [derivePairs, hlb, hlm, hm1, hm2]
            | some qv =>
              simp [derivePairs, hlb, hlm, hm1, hm2, ih hrest]

/-- Every pair a successful derivation emits carries the SWR of some loss
value at or above the 0.001 floor. -/
lemma derivePairs_mem {b m : FrequencyPowerMap} :
    ∀ ks out, derivePairs b m ks = some out →
      ∀ p ∈ out, ∃ l : ℚ, 1 / 1000 ≤ l ∧ p.2 = swrQ l := by
  intro ks
  induction ks with
  | nil =>
    intro out h p hp
    simp only [derivePairs, Option.some_inj] at h
    subst h; simp at hp
  | cons x rest ih =>
    intro out h p hp
    cases hlb : lookup b x with
    | none => simp [derivePairs, hlb] at h
    | some pre =>
      cases hlm : lookup m x with
      | none => simp [derivePairs, hlb, hlm] at h
      | some post =>
        cases hm1 : meanOpt pre with
        | none => simp [derivePairs, hlb, hlm, hm1] at h
        | some pv =>
          cases hm2 : meanOpt post with
          | none => simp [derivePairs, hlb, hlm, hm1, hm2] at h
          | some qv =>
            cases htl : derivePairs b m rest with
            | none => simp [derivePairs, hlb, hlm, hm1, hm2, htl] at h
            | some tail =>
              simp only [derivePairs, hlb, hlm, hm1, hm2, htl,
                Option.some_inj] at h
              subst h
              rcases List.mem_cons.mp hp with he | htail
              · subst he
                exact ⟨max (pv - qv) (1 / 1000), le_max_right _ _, rfl⟩
              · exact ih tail htl p htail

lemma osmocomStep_WF {loops : Nat} {st : ScanState} {raw : List Char}
    (h : mapWF st.frequencies) :
    (∀ st1, osmocomStep loops st raw = Sum.inl st1 → mapWF st1.frequencies) ∧
    (∀ m s c, osmocomStep loops st raw = Sum.inr (ScanResult.done m s c) → mapWF m) := by
  unfold osmocomStep
  constructor
  · intro st1 heq
    dsimp only at heq
    split at heq
    · split at heq
      · exact absurd heq (by simp)
      · split at heq
        · exact absurd heq (by simp)
        · split at heq
          · exact absurd heq (by simp)
          · split at heq
            · exact absurd heq (by simp)
            · cases heq
              exact mapWF_setdefaultAppend _ _ _ (by rw [aggTrack_frequencies]; exact h)
    · cases heq; exact h
  · intro m s c heq
    dsimp only at heq
    split at heq
    · split at heq
      · exact absurd heq (by simp)
      · split at heq
        · cases heq
          rw [aggTrack_frequencies]; exact h
        · split at heq
          · exact absurd heq (by simp)
          · split at heq
            · exact absurd heq (by simp)
            · exact absurd heq (by simp)
    · exact absurd heq (by simp)

lemma osmo_run_WF (loops : Nat) :
    ∀ fuel stream st, mapWF st.frequencies →
      ∀ m s c, get_antenna_statistics_osmocom loops fuel stream st
        = ScanResult.done m s c → mapWF m := by
  intro fuel
  induction fuel with
  | zero =>
    intro stream st h m s c heq
    exact absurd heq (by simp [get_antenna_statistics_osmocom])
  | succ n ih =>
    intro stream st h m s c heq
    rcases stream with _ | ⟨item, rest⟩
    · simp only [get_antenna_statistics_osmocom] at heq
      cases hstep : osmocomStep loops st [] with
      | inl st1 =>
        simp only [hstep] at heq
        exact ih [] st1 ((osmocomStep_WF h).1 st1 hstep) m s c heq
      | inr r =>
        simp only [hstep] at heq
        cases r with
        | done m2 s2 c2 =>
          cases heq
          exact (osmocomStep_WF h).2 m s c hstep
        | raisedKI b => exact absurd heq (by simp)
        | errValue => exact absurd heq (by simp)
        | fuelOut => exact absurd heq (by simp)
    · cases item with
      | interrupt =>
        simp only [get_antenna_statistics_osmocom] at heq
        exact absurd heq (by simp)
      | line raw =>
        simp only [get_antenna_statistics_osmocom] at heq
        cases hstep : osmocomStep loops st raw with
        | inl st1 =>
          simp only [hstep] at heq
          exact ih rest st1 ((osmocomStep_WF h).1 st1 hstep) m s c heq
        | inr r =>
          simp only [hstep] at heq
          cases r with
          | done m2 s2 c2 =>
            cases heq
            exact (osmocomStep_WF h).2 m s c hstep
          | raisedKI b => exact absurd heq (by simp)
          | errValue => exact absurd heq (by simp)
          | fuelOut => exact absurd heq (by simp)

lemma rtlInner_WF (loops : Nat) (base interval : ℚ) :
    ∀ meas idx st, mapWF st.frequencies →
      (∀ st1, rtlInner loops base interval meas idx st = InnerOut.ok st1 →
        mapWF st1.frequencies) ∧
      (∀ st1, rtlInner loops base interval meas idx st = InnerOut.brk st1 →
        mapWF st1.frequencies) := by
  intro meas
  induction meas with
  | nil =>
    intro idx st h
    constructor
    · intro st1 heq
      cases heq; exact h
    · intro st1 heq
      exact absurd heq (by simp [rtlInner])
  | cons pw rest ih =>
    intro idx st h
    constructor <;> intro st1 heq <;>
      (unfold rtlInner at heq; dsimp only at heq; split at heq)
    · exact absurd heq (by simp)
    · split at heq
      · exact absurd heq (by simp)
      · exact (ih (idx + 1) _
          (mapWF_setdefaultAppend _ _ _ (by rw [aggTrack_frequencies]; exact h))).1
          st1 heq
    · cases heq
      rw [aggTrack_frequencies]; exact h
    · split at heq
      · exact absurd heq (by simp)
      · exact (ih (idx + 1) _
          (mapWF_setdefaultAppend _ _ _ (by rw [aggTrack_frequencies]; exact h))).2
          st1 heq

lemma rtl_run_WF (loops : Nat) :
    ∀ stream st sig, mapWF st.frequencies →
      ∀ m s c, get_antenna_statistics_rtl_power loops stream st sig
        = ScanResult.done m s c → mapWF m := by
  intro stream
  induction stream with
  | nil =>
    intro st sig h m s c heq
    cases heq; exact h
  | cons item rest ih =>
    cases item with
    | interrupt =>
      intro st sig h m s c heq
      cases heq; exact h
    | line raw =>
      intro st sig h m s c heq
      simp only [get_antenna_statistics_rtl_power] at heq
      split at heq
      · cases heq; exact h
      · split at heq
        · exact ih st sig h m s c heq
        · split at heq
          · exact ih st sig h m s c heq
          · split at heq
            · exact ih st sig h m s c heq
            · split at heq
              · exact ih st sig h m s c heq
              · split at heq
                · exact absurd heq (by simp)
                · rename_i st1 hstep
                  exact ih st1 sig
                    ((rtlInner_WF loops _ _ _ _ _ h).1 st1 hstep) m s c heq
                · rename_i st1 hstep
                  exact ih st1 true
                    ((rtlInner_WF loops _ _ _ _ _ h).2 st1 hstep) m s c heq

/-! ## Analytic facts about the SWR formula -/

lemma ratio_gt_one {l : ℚ} (h : 0 < l) : 1 < (10 : ℝ) ^ ((l : ℝ) / 20) := by
  rw [Real.one_lt_rpow_iff_of_pos (by norm_num)]
  left
  constructor
  · norm_num
  · have : (0 : ℝ) < (l : ℝ) := by exact_mod_cast h
    linarith

lemma swrQ_ge_one {l : ℚ} (h : 0 < l) : 1 ≤ swrQ l := by
  have hr := ratio_gt_one h
  unfold swrQ
  rw [one_le_div (by linarith)]
  linarith

lemma swrQ_strictAnti {l1 l2 : ℚ} (h1 : 0 < l1) (h12 : l1 < l2) :
    swrQ l2 < swrQ l1 := by
  have hr1 := ratio_gt_one h1
  have hrr : (10 : ℝ) ^ ((l1 : ℝ) / 20) < (10 : ℝ) ^ ((l2 : ℝ) / 20) := by
    apply Real.rpow_lt_rpow_of_exponent_lt (by norm_num)
    have : (l1 : ℝ) < (l2 : ℝ) := by exact_mod_cast h12
    linarith
  have hr2 : 1 < (10 : ℝ) ^ ((l2 : ℝ) / 20) := lt_trans hr1 hrr
  unfold swrQ
  rw [div_lt_div_iff₀ (by linarith) (by linarith)]
  nlinarith

/-! ## Claim theorems -/

/-- C1: for every baseline and measurement map whose key set includes every
baseline key, in which every key maps to a non-empty reading list,
`get_frequency_swr_pairs` returns exactly one pair per baseline key in
ascending frequency order, each pair carrying
`swr = (10^(loss/20)+1)/(10^(loss/20)-1)` with
`loss = max(mean baseline - mean measurement, 0.001)` and arithmetic means. -/
theorem C1_deriver_matches_spec (b m : FrequencyPowerMap)
    (hsup : ∀ k ∈ keys b, k ∈ keys m) (hb : mapWF b) (hm : mapWF m) :
    get_frequency_swr_pairs b m = some (specPairs b m) ∧
    (specPairs b m).map Prod.fst = sortedKeys b ∧
    List.Sorted (fun a c => a ≤ c) ((specPairs b m).map Prod.fst) ∧
    ((specPairs b m).map Prod.fst).Perm (keys b) := by
  have h1 : get_frequency_swr_pairs b m = some (specPairs b m) := by
    unfold get_frequency_swr_pairs specPairs
    exact derivePairs_eq_spec hb hm hsup (sortedKeys b)
      (fun k hk => mem_keys_of_mem_sortedKeys hk)
  have h2 : (specPairs b m).map Prod.fst = sortedKeys b := by
    unfold specPairs
    rw [List.map_map]
    simp [Function.comp_def]
  refine ⟨h1, h2, ?_, ?_⟩
  · rw [h2]
    unfold sortedKeys
    exact List.sorted_insertionSort _ _
  · rw [h2]
    unfold sortedKeys
    exact List.perm_insertionSort _ _

/-- Witness for C1 at the spec's round-trip example maps. -/
theorem C1_witness :
    get_frequency_swr_pairs [(1000, [-70, -70])] [(1000, [-80, -80])]
      = some (specPairs [(1000, [-70, -70])] [(1000, [-80, -80])]) ∧
    ((specPairs [(1000, [-70, -70])] [(1000, [-80, -80])]).map Prod.fst).Perm
      (keys [(1000, [-70, -70])]) :=
  ⟨(C1_deriver_matches_spec _ _ (by decide) (by decide) (by decide)).1,
   (C1_deriver_matches_spec _ _ (by decide) (by decide) (by decide)).2.2.2⟩

/-- C8: a baseline key missing from the measurement map makes the whole SWR
derivation fail with a lookup error; no result list with the frequency
omitted or defaulted is returned. -/
theorem C8_missing_key_aborts (b m : FrequencyPowerMap) (k : ℚ)
    (hk : k ∈ keys b) (hm : ¬ k ∈ keys m) :
    get_frequency_swr_pairs b m = none := by
  have hsk : k ∈ sortedKeys b :=
    (List.perm_insertionSort (fun a c => a ≤ c) (keys b)).mem_iff.mpr hk
  unfold get_frequency_swr_pairs
  exact derivePairs_eq_none (lookup_eq_none_of_not_mem hm) _ hsk

/-- Witness for C8: baseline key 2000 with an empty measurement map. -/
theorem C8_witness :
    ((2000 : ℚ) ∈ keys [((2000 : ℚ), [(1 : ℚ)])]) ∧
    (¬ (2000 : ℚ) ∈ keys ([] : FrequencyPowerMap)) ∧
    get_frequency_swr_pairs [((2000 : ℚ), [(1 : ℚ)])] [] = none :=
  ⟨by decide, by decide,
   C8_missing_key_aborts [((2000 : ℚ), [(1 : ℚ)])] [] 2000
     (by decide) (by decide)⟩

/-- C9: for losses at or above the 0.001 floor the SWR formula has a
strictly positive denominator, is at least 1, and is strictly decreasing in
the loss; consequently every SWR value in the deriver's output is at
least 1. -/
theorem C9_swr_formula_props :
    (∀ l : ℚ, 1 / 1000 ≤ l →
       0 < (10 : ℝ) ^ ((l : ℝ) / 20) - 1 ∧ 1 ≤ swrQ l) ∧
    (∀ l1 l2 : ℚ, 1 / 1000 ≤ l1 → l1 < l2 → swrQ l2 < swrQ l1) ∧
    (∀ b m out, get_frequency_swr_pairs b m = some out →
       ∀ p ∈ out, 1 ≤ p.2) := by
  have hpos : ∀ l : ℚ, 1 / 1000 ≤ l → 0 < l := fun l h =>
    lt_of_lt_of_le (by norm_num) h
  refine ⟨?_, ?_, ?_⟩
  · intro l h
    have := ratio_gt_one (hpos l h)
    exact ⟨by linarith, swrQ_ge_one (hpos l h)⟩
  · intro l1 l2 h1 h12
    exact swrQ_strictAnti (hpos l1 h1) h12
  · intro b m out hout p hp
    obtain ⟨l, hl, hpl⟩ := derivePairs_mem (sortedKeys b) out hout p hp
    rw [hpl]
    exact swrQ_ge_one (hpos l hl)

/-- Witness for C9, exercising each conjunct; the last one uses the spec's
round-trip example, whose loss is 10. -/
theorem C9_witness :
    ((1 : ℚ) / 1000 ≤ 1) ∧ (1 ≤ swrQ 1) ∧ (swrQ 2 < swrQ 1) ∧
    (1 ≤ swrQ 10) := by
  refine ⟨by norm_num, (C9_swr_formula_props.1 1 (by norm_num)).2,
    C9_swr_formula_props.2.1 1 2 (by norm_num) (by norm_num), ?_⟩
  have hrun : get_frequency_swr_pairs [(1000, [-70, -70])] [(1000, [-80, -80])]
      = some [(1000, swrQ 10)] := by
    have : max ((-70 + -70) / 2 - (-80 + -80) / 2) (1 / 1000 : ℚ) = 10 := by
      norm_num
    simp [get_frequency_swr_pairs, sortedKeys, keys, derivePairs, lookup,
      meanOpt, List.insertionSort, List.orderedInsert]
    norm_num
  exact C9_swr_formula_props.2.2 _ _ _ hrun (1000, swrQ 10) (by simp)

/-- C10: a map returned by either scan function maps every key to a
non-empty reading list (keys are only created together with an appended
reading), so the deriver's per-key arithmetic mean never divides by
zero. -/
theorem C10_scan_maps_wellformed :
    (∀ loops fuel stream m s c,
       get_antenna_statistics_osmocom loops fuel stream ⟨[], 0, 0⟩
         = ScanResult.done m s c → mapWF m) ∧
    (∀ loops stream m s c,
       get_antenna_statistics_rtl_power loops stream ⟨[], 0, 0⟩ false
         = ScanResult.done m s c → mapWF m) ∧
    (∀ xs : List ℚ, xs ≠ [] → (meanOpt xs).isSome = true) := by
  refine ⟨?_, ?_, ?_⟩
  · intro loops fuel stream m s c heq
    exact osmo_run_WF loops fuel stream ⟨[], 0, 0⟩
      (fun p hp => absurd hp (List.not_mem_nil p)) m s c heq
  · intro loops stream m s c heq
    exact rtl_run_WF loops stream ⟨[], 0, 0⟩ false
      (fun p hp => absurd hp (List.not_mem_nil p)) m s c heq
  · intro xs h
    rw [meanOpt_of_ne_nil h]
    rfl

/-- Witness for C10: a completed Format A scan of two identical lines, an
empty Format B scan, and a singleton mean. -/
theorem C10_witness :
    get_antenna_statistics_osmocom 1 3
      [Item.line "a b c 100 d 10 e 2 f g".data,
       Item.line "a b c 100 d 10 e 2 f g".data] ⟨[], 0, 0⟩
      = ScanResult.done [(100, [2])] true false ∧
    mapWF [((100 : ℚ), [(2 : ℚ)])] ∧
    mapWF ([] : FrequencyPowerMap) ∧
    (meanOpt [(2 : ℚ)]).isSome = true :=
  ⟨by decide,
   C10_scan_maps_wellformed.1 1 3
     [Item.line "a b c 100 d 10 e 2 f g".data,
      Item.line "a b c 100 d 10 e 2 f g".data] [(100, [2])] true false
     (by decide),
   C10_scan_maps_wellformed.2.1 1 [] [] false false rfl,
   C10_scan_maps_wellformed.2.2 [(2 : ℚ)] (by decide)⟩

/-- C2 counterexample: on the frequency sequence [10,20,30,5,15,25,40] with
threshold 1 the aggregator signals completion exactly while processing the
element 5 (index 3), but the resulting map has no entry for 5: the `break`
comes before the `append`, so the completion-triggering sample is never
recorded, contrary to the claim that every processed sample is recorded. -/
theorem C2_counterexample :
    aggRun 1 [(10, 10, 0), (20, 20, 0), (30, 30, 0), (5, 5, 0), (15, 15, 0),
        (25, 25, 0), (40, 40, 0)] ⟨[], 0, 0⟩ 0
      = (⟨[(10, [0]), (20, [0]), (30, [0])], 1, 30⟩, some 3) ∧
    ¬ ((5 : ℚ) ∈ keys [(10, [0]), (20, [0]), (30, [0])]) := by
  constructor
  · norm_num [aggRun, aggStep, aggTrack, setdefaultAppend]
  · decide

/-- C2 (amended): a sample at or below the running maximum increments the
loop counter and leaves the maximum unchanged; a larger sample updates the
maximum and leaves the counter unchanged; a sample that does not trigger
completion is recorded under its designated key, while the
completion-triggering sample is dropped.  On [10,20,30,5,15,25,40] with
threshold 1, completion is signalled exactly at element 5 and the map then
holds entries for 10, 20 and 30 only. -/
theorem C2_aggregator_amended :
    (∀ (loops : Nat) (st : ScanState) (f k p : ℚ),
       f ≤ st.max_encountered_frequency →
       (aggStep loops st f k p).1.loop_cursor = st.loop_cursor + 1 ∧
       (aggStep loops st f k p).1.max_encountered_frequency
         = st.max_encountered_frequency) ∧
    (∀ (loops : Nat) (st : ScanState) (f k p : ℚ),
       st.max_encountered_frequency < f →
       (aggStep loops st f k p).1.loop_cursor = st.loop_cursor ∧
       (aggStep loops st f k p).1.max_encountered_frequency = f) ∧
    (∀ (loops : Nat) (st : ScanState) (f k p : ℚ),
       (aggStep loops st f k p).2 = false →
       (aggStep loops st f k p).1.frequencies
         = setdefaultAppend st.frequencies k p) ∧
    (∀ (loops : Nat) (st : ScanState) (f k p : ℚ),
       (aggStep loops st f k p).2 = true →
       (aggStep loops st f k p).1.frequencies = st.frequencies) ∧
    aggRun 1 [(10, 10, 0), (20, 20, 0), (30, 30, 0), (5, 5, 0), (15, 15, 0),
        (25, 25, 0), (40, 40, 0)] ⟨[], 0, 0⟩ 0
      = (⟨[(10, [0]), (20, [0]), (30, [0])], 1, 30⟩, some 3) := by
  refine ⟨?_, ?_, ?_, ?_, ?_⟩
  · intro loops st f k p h
    simp only [aggStep, aggTrack, if_pos h]
    split <;> exact ⟨rfl, rfl⟩
  · intro loops st f k p h
    simp only [aggStep, aggTrack, if_neg (not_le.mpr h)]
    split <;> exact ⟨rfl, rfl⟩
  · intro loops st f k p h
    unfold aggStep at h ⊢
    dsimp only at h ⊢
    split at h
    · simp at h
    · rename_i hc
      rw [if_neg hc]
      simp [aggTrack_frequencies]
  · intro loops st f k p h
    unfold aggStep at h ⊢
    dsimp only at h ⊢
    split at h
    · rename_i hc
      rw [if_pos hc]
      simp [aggTrack_frequencies]
    · simp at h
  · norm_num [aggRun, aggStep, aggTrack, setdefaultAppend]

/-- Witness for C2, exercising each branch of the amended step property. -/
theorem C2_witness :
    ((10 : ℚ) ≤ 10 ∧
     (aggStep 1 ⟨[], 0, 10⟩ 10 10 0).1.loop_cursor = 0 + 1) ∧
    ((0 : ℚ) < 20 ∧
     (aggStep 5 ⟨[], 0, 0⟩ 20 20 0).1.max_encountered_frequency = 20) ∧
    ((aggStep 5 ⟨[], 0, 0⟩ 20 20 7).2 = false ∧
     (aggStep 5 ⟨[], 0, 0⟩ 20 20 7).1.frequencies = setdefaultAppend [] 20 7) ∧
    ((aggStep 1 ⟨[], 0, 10⟩ 10 10 0).2 = true ∧
     (aggStep 1 ⟨[], 0, 10⟩ 10 10 0).1.frequencies = []) :=
  ⟨⟨by decide, (C2_aggregator_amended.1 1 ⟨[], 0, 10⟩ 10 10 0 (by decide)).1⟩,
   ⟨by decide, (C2_aggregator_amended.2.1 5 ⟨[], 0, 0⟩ 20 20 0 (by decide)).2⟩,
   ⟨by decide, C2_aggregator_amended.2.2.1 5 ⟨[], 0, 0⟩ 20 20 7 (by decide)⟩,
   ⟨by decide, C2_aggregator_amended.2.2.2.1 1 ⟨[], 0, 10⟩ 10 10 0 (by decide)⟩⟩

/-- C3 counterexample: a cancellation delivered to the rtl_power scan is
absorbed: the function returns the accumulated map normally (after sending
the termination signal) instead of re-raising, contrary to the claim that
both variants re-raise. -/
theorem C3_counterexample :
    get_antenna_statistics_rtl_power 1 [Item.interrupt] ⟨[], 0, 0⟩ false
      = ScanResult.done [] true true ∧
    get_antenna_statistics_rtl_power 1 [Item.interrupt] ⟨[], 0, 0⟩ false
      ≠ ScanResult.raisedKI true ∧
    get_antenna_statistics_rtl_power 1 [Item.interrupt] ⟨[], 0, 0⟩ false
      ≠ ScanResult.raisedKI false :=
  ⟨rfl, by decide, by decide⟩

/-- C3 (amended): on a cancellation during a scan, the osmocom variant sends
the termination signal and re-raises, while the rtl_power variant sends the
termination signal but absorbs the cancellation and returns the accumulated
map normally. -/
theorem C3_cancellation_amended :
    (∀ (loops fuel : Nat) (stream : List Item) (st : ScanState),
       get_antenna_statistics_osmocom loops (fuel + 1)
         (Item.interrupt :: stream) st = ScanResult.raisedKI true) ∧
    (∀ (loops : Nat) (stream : List Item) (st : ScanState) (sig : Bool),
       get_antenna_statistics_rtl_power loops (Item.interrupt :: stream) st sig
         = ScanResult.done st.frequencies true true) :=
  ⟨fun _ _ _ _ => rfl, fun _ _ _ _ => rfl⟩

/-- C4: the rtl_power loop terminates on a blank line or at end of stream
and returns the accumulated map, but the osmocom loop never returns at end
of stream: Python `readline` yields the empty string forever at EOF, the
ten-field unpack fails and the bare `except: continue` restarts the loop,
so no amount of fuel makes it return the partial map. -/
theorem C4_eof_behavior :
    (∀ (loops fuel : Nat) (st : ScanState),
       get_antenna_statistics_osmocom loops fuel [] st = ScanResult.fuelOut) ∧
    (∀ (loops : Nat) (st : ScanState) (sig : Bool),
       get_antenna_statistics_rtl_power loops [] st sig
         = ScanResult.done st.frequencies sig false) ∧
    (∀ (loops : Nat) (st : ScanState) (sig : Bool) (rest : List Item),
       get_antenna_statistics_rtl_power loops (Item.line [] :: rest) st sig
         = ScanResult.done st.frequencies sig false) := by
  refine ⟨?_, fun _ _ _ => rfl, fun _ _ _ _ => rfl⟩
  intro loops fuel
  induction fuel with
  | zero => intro st; rfl
  | succ n ih =>
    intro st
    have hstep : osmocomStep loops st [] = Sum.inl st := rfl
    simp only [get_antenna_statistics_osmocom, hstep]
    exact ih st

/-! ## Concrete Format B tokens -/

lemma pyFloat_neg683 : pyFloat [' ', '-', '6', '8', '.', '3'] = some (-683 / 10) := by
  have h1 : trimChars [' ', '-', '6', '8', '.', '3'] = '-' :: ['6', '8', '.', '3'] := by
    decide
  have h2 : splitChar '.' ['6', '8', '.', '3'] = [['6', '8'], ['3']] := by decide
  have h3 : natOfDigits ['6', '8'] = 68 := by decide
  have h4 : natOfDigits ['3'] = 3 := by decide
  simp only [pyFloat, h1, pyFloatCore, h2]
  rw [if_pos (by decide)]
  rw [h3, h4]
  norm_num

lemma pyFloat_neg65 : pyFloat [' ', '-', '6', '5', '.', '0'] = some (-65) := by
  have h1 : trimChars [' ', '-', '6', '5', '.', '0'] = '-' :: ['6', '5', '.', '0'] := by
    decide
  have h2 : splitChar '.' ['6', '5', '.', '0'] = [['6', '5'], ['0']] := by decide
  have h3 : natOfDigits ['6', '5'] = 65 := by decide
  have h4 : natOfDigits ['0'] = 0 := by decide
  simp only [pyFloat, h1, pyFloatCore, h2]
  rw [if_pos (by decide)]
  rw [h3, h4]
  norm_num

/-- A Format B line records exactly the bins `base + idx * step` while no
wrap-around occurs: if every reading parses, the step is positive and the
first bin lies above the running maximum, the inner loop runs through and
appends one reading per bin, leaving the loop counter untouched. -/
lemma rtlInner_records (loops : Nat) (base interval : ℚ) (hint : 0 < interval) :
    ∀ (meas : List (List Char)) (idx : Nat) (st : ScanState),
      (∀ pw ∈ meas, (pyFloat pw).isSome = true) →
      st.max_encountered_frequency < base + (idx : ℚ) * interval →
      st.loop_cursor < loops →
      ∃ st2, rtlInner loops base interval meas idx st = InnerOut.ok st2 ∧
        st2.frequencies
          = recordAll st.frequencies (specBinSamples base interval meas idx) ∧
        st2.loop_cursor = st.loop_cursor := by
  intro meas
  induction meas with
  | nil =>
    intro idx st _ _ _
    exact ⟨st, rfl, rfl, rfl⟩
  | cons pw rest ih =>
    intro idx st hp hmax hc
    obtain ⟨p, hpw⟩ := Option.isSome_iff_exists.mp (hp pw (by simp))
    have hnle : ¬ (base + (idx : ℚ) * interval ≤ st.max_encountered_frequency) :=
      not_le.mpr hmax
    have htrack : aggTrack st (base + (idx : ℚ) * interval)
        = { st with max_encountered_frequency := base + (idx : ℚ) * interval } := by
      unfold aggTrack
      rw [if_neg hnle]
    have hnc : ¬ (loops ≤ st.loop_cursor) := not_le.mpr hc
    have hmax2 :
        ({ frequencies :=
             setdefaultAppend st.frequencies (base + (idx : ℚ) * interval) p,
           loop_cursor := st.loop_cursor,
           max_encountered_frequency :=
             base + (idx : ℚ) * interval } : ScanState).max_encountered_frequency
          < base + ((idx + 1 : ℕ) : ℚ) * interval := by
      dsimp only
      push_cast
      nlinarith
    obtain ⟨st2, h1, h2, h3⟩ := ih (idx + 1)
      { frequencies :=
          setdefaultAppend st.frequencies (base + (idx : ℚ) * interval) p,
        loop_cursor := st.loop_cursor,
        max_encountered_frequency := base + (idx : ℚ) * interval }
      (fun q hq => hp q (by simp [hq])) hmax2 (by simpa using hc)
    refine ⟨st2, ?_, ?_, by simpa using h3⟩
    · conv_lhs => unfold rtlInner
      dsimp only
      rw [htrack]
      rw [if_neg (by simpa using hnc)]
      simp only [hpw]
      exact h1
    · rw [h2]
      simp [recordAll, specBinSamples, hpw]

/-- C5 counterexample: on the spec's example line the code yields only two
samples, at 750000000 and 750100000 with powers -68.3 and -65.0: the sixth
comma field (-70.1) sits in the position `parts[5]` that the slice
`parts[6:]` skips, so no sample at 750200000 and no reading -70.1 exist,
contrary to the claimed three samples. -/
theorem C5_counterexample :
    get_antenna_statistics_rtl_power 1
      [Item.line "2015-08-17, 20:32:17, 750000000, 950000000, 100000, -70.1, -68.3, -65.0".data]
      ⟨[], 0, 0⟩ false
      = ScanResult.done [(750000000, [-683/10]), (750100000, [-65])] false false ∧
    ¬ ((750200000 : ℚ) ∈ keys [(750000000, [-683/10]), (750100000, [-65])]) ∧
    lookup [(750000000, [-683/10]), (750100000, [-65])] 750000000
      ≠ some [-701/10] := by
  refine ⟨?_, ?_, ?_⟩
  · have hL : trimChars "2015-08-17, 20:32:17, 750000000, 950000000, 100000, -70.1, -68.3, -65.0".data
        = "2015-08-17, 20:32:17, 750000000, 950000000, 100000, -70.1, -68.3, -65.0".data := by
      decide
    have hsplit : splitChar ',' "2015-08-17, 20:32:17, 750000000, 950000000, 100000, -70.1, -68.3, -65.0".data
        = ["2015-08-17".data, " 20:32:17".data, " 750000000".data,
           " 950000000".data, " 100000".data, " -70.1".data, " -68.3".data,
           " -65.0".data] := by decide
    have hget2 : (["2015-08-17".data, " 20:32:17".data, " 750000000".data,
           " 950000000".data, " 100000".data, " -70.1".data, " -68.3".data,
           " -65.0".data] : List (List Char)).get? 2 = some " 750000000".data := by
      decide
    have hget4 : (["2015-08-17".data, " 20:32:17".data, " 750000000".data,
           " 950000000".data, " 100000".data, " -70.1".data, " -68.3".data,
           " -65.0".data] : List (List Char)).get? 4 = some " 100000".data := by
      decide
    have hdrop : (["2015-08-17".data, " 20:32:17".data, " 750000000".data,
           " 950000000".data, " 100000".data, " -70.1".data, " -68.3".data,
           " -65.0".data] : List (List Char)).drop 6
        = [" -68.3".data, " -65.0".data] := by decide
    have hb : pyFloat " 750000000".data = some 750000000 := by decide
    have hi : pyFloat " 100000".data = some 100000 := by decide
    simp only [get_antenna_statistics_rtl_power, hL, hsplit, hget2, hget4,
      hdrop, hb, hi]
    rw [if_neg (by decide)]
    simp only [rtlInner, aggTrack, pyFloat_neg683, pyFloat_neg65]
    norm_num [setdefaultAppend]
  · norm_num [keys]
  · norm_num [lookup]

/-- C5 (amended): the Format B decoder takes the third comma field as the
base frequency, the fifth as the per-bin step, and the fields from the
seventh onward as readings, emitting one sample per reading at
`base + bin_index * step`; on the spec's example line (which has only eight
fields) this yields two samples, at 750000000 and 750100000 with powers
-68.3 and -65.0, the sixth field -70.1 being skipped as the unread
`parts[5]` position. -/
theorem C5_formatB_decoder_amended :
    (∀ (loops : Nat) (base interval : ℚ), 0 < interval →
      ∀ (meas : List (List Char)) (idx : Nat) (st : ScanState),
        (∀ pw ∈ meas, (pyFloat pw).isSome = true) →
        st.max_encountered_frequency < base + (idx : ℚ) * interval →
        st.loop_cursor < loops →
        ∃ st2, rtlInner loops base interval meas idx st = InnerOut.ok st2 ∧
          st2.frequencies
            = recordAll st.frequencies (specBinSamples base interval meas idx) ∧
          st2.loop_cursor = st.loop_cursor) ∧
    specBinSamples 750000000 100000 [" -68.3".data, " -65.0".data] 0
      = [(750000000, -683/10), (750100000, -65)] := by
  constructor
  · intro loops base interval hint
    exact rtlInner_records loops base interval hint
  · simp only [specBinSamples, pyFloat_neg683, pyFloat_neg65]
    norm_num

/-- Witness for C5's amended decoder property at a one-bin line. -/
theorem C5_witness :
    ((0 : ℚ) < 1) ∧
    rtlInner 1 1 1 [['5']] 0 ⟨[], 0, 0⟩ ≠ InnerOut.err := by
  refine ⟨by norm_num, ?_⟩
  obtain ⟨st2, heq, h2, h3⟩ := C5_formatB_decoder_amended.1 1 1 1 (by norm_num)
    [['5']] 0 ⟨[], 0, 0⟩ (by decide) (by norm_num) (by norm_num)
  rw [heq]
  simp

/-- C6 counterexample: a line with exactly ten space-separated fields whose
numeric positions hold non-numeric text makes the osmocom scan raise a
`ValueError` (the `float()` calls sit outside the guarded unpack), so the
decode step can raise, contrary to the claim that such lines are skipped
silently. -/
theorem C6_counterexample :
    get_antenna_statistics_osmocom 5 2 [Item.line "a b c d e f g h i j".data]
      ⟨[], 0, 0⟩ = ScanResult.errValue := by
  decide

/-- C6 (amended): a field-count mismatch is classified as non-data and the
line is skipped silently with the state unchanged; but a line with exactly
ten fields and a non-numeric value in a numeric position raises an error
(the guarded region covers only the tuple unpack). -/
theorem C6_formatA_skip_amended :
    (∀ (loops : Nat) (st : ScanState) (raw : List Char),
       (splitChar ' ' (trimChars raw)).length ≠ 10 →
       osmocomStep loops st raw = Sum.inl st) ∧
    (∀ (loops : Nat) (st : ScanState) (raw : List Char)
       (d t w1 cf w2 fr w3 pw w4 nf : List Char),
       splitChar ' ' (trimChars raw) = [d, t, w1, cf, w2, fr, w3, pw, w4, nf] →
       pyFloat fr = none →
       osmocomStep loops st raw = Sum.inr ScanResult.errValue) := by
  constructor
  · intro loops st raw h
    unfold osmocomStep
    dsimp only
    split
    · rename_i d t w1 cf w2 fr w3 pw w4 nf heqs
      exact absurd (by rw [heqs]; simp : (splitChar ' ' (trimChars raw)).length = 10) h
    · rfl
  · intro loops st raw d t w1 cf w2 fr w3 pw w4 nf hsplit hfr
    unfold osmocomStep
    dsimp only
    simp only [hsplit, hfr]

/-- Witness for C6: the spec's "garbage header text" line has three fields
and is skipped; a ten-field non-numeric line raises. -/
theorem C6_witness :
    ((splitChar ' ' (trimChars "garbage header text".data)).length ≠ 10) ∧
    osmocomStep 5 ⟨[], 0, 0⟩ "garbage header text".data = Sum.inl ⟨[], 0, 0⟩ ∧
    (pyFloat "f".data = none) ∧
    osmocomStep 5 ⟨[], 0, 0⟩ "a b c d e f g h i j".data
      = Sum.inr ScanResult.errValue :=
  ⟨by decide,
   C6_formatA_skip_amended.1 5 ⟨[], 0, 0⟩ "garbage header text".data (by decide),
   by decide,
   C6_formatA_skip_amended.2 5 ⟨[], 0, 0⟩ "a b c d e f g h i j".data
     "a".data "b".data "c".data "d".data "e".data "f".data "g".data "h".data
     "i".data "j".data (by decide) (by decide)⟩

/-- C7 counterexample: with the running maximum at 500, a parsed line whose
center frequency is 600 and whose per-sample freq is 300 increments the loop
counter (a wrap), even though the center frequency 600 exceeds the maximum:
completion detection compares the `freq` field, not the center frequency.
The reading is stored under the center frequency 600. -/
theorem C7_counterexample :
    osmocomStep 5 ⟨[], 0, 500⟩ "a b c 600 d 300 e 2 f g".data
      = Sum.inl ⟨[(600, [2])], 1, 500⟩ ∧
    ¬ ((600 : ℚ) ≤ 500) := by
  exact ⟨by decide, by decide⟩

/-- C7 (amended): for a successfully parsed sample, wrap-around detection
compares the per-sample `freq` value f against the running maximum (the
counter increments exactly when f is at or below it), and the power reading
is stored under the `center_freq` value c, not under f. -/
theorem C7_formatA_keying_amended :
    ∀ (loops : Nat) (st : ScanState) (raw : List Char)
      (d t w1 cf w2 fr w3 pw w4 nf : List Char) (f c p : ℚ),
      splitChar ' ' (trimChars raw) = [d, t, w1, cf, w2, fr, w3, pw, w4, nf] →
      pyFloat fr = some f → pyFloat cf = some c → pyFloat pw = some p →
      (f ≤ st.max_encountered_frequency →
         osmocomStep loops st raw =
           if loops ≤ st.loop_cursor + 1 then
             Sum.inr (ScanResult.done st.frequencies true false)
           else
             Sum.inl ⟨setdefaultAppend st.frequencies c p, st.loop_cursor + 1,
               st.max_encountered_frequency⟩) ∧
      (st.max_encountered_frequency < f →
         osmocomStep loops st raw =
           if loops ≤ st.loop_cursor then
             Sum.inr (ScanResult.done st.frequencies true false)
           else
             Sum.inl ⟨setdefaultAppend st.frequencies c p, st.loop_cursor,
               f⟩) := by
  intro loops st raw d t w1 cf w2 fr w3 pw w4 nf f c p hsplit hfr hcf hpw
  constructor
  · intro hbr
    unfold osmocomStep
    dsimp only
    simp only [hsplit, hfr, hcf, hpw, aggTrack, if_pos hbr]
  · intro hbr
    unfold osmocomStep
    dsimp only
    simp only [hsplit, hfr, hcf, hpw, aggTrack, if_neg (not_le.mpr hbr)]

/-- Witness for C7 at a concrete parsed line with center 600, freq 300. -/
theorem C7_witness :
    ((0 : ℚ) < 300) ∧
    osmocomStep 5 ⟨[], 0, 0⟩ "a b c 600 d 300 e 2 f g".data
      = Sum.inl ⟨[(600, [2])], 0, 300⟩ := by
  refine ⟨by decide, ?_⟩
  have h := (C7_formatA_keying_amended 5 ⟨[], 0, 0⟩
    "a b c 600 d 300 e 2 f g".data "a".data "b".data "c".data "600".data
    "d".data "300".data "e".data "2".data "f".data "g".data 300 600 2
    (by decide) (by decide) (by decide) (by decide)).2 (by decide)
  rw [h]
  decide

end SwrUtility
